import Mathlib

/-!
Shallow embedding of the `ledgerwaitlist` core in Lean 4, together with proofs
checking the natural-language specification against the code.

The embedding covers three source modules:

* `src/python/backtester.py` — the synthetic order-book execution engine
  (`Backtester.ingest`, `Backtester._synthetic_order_book`,
  `Backtester.simulate_fill`, and the period loop of `Backtester.run`).
  Monetary floats are modelled as rationals (`ℚ`); a missing value (pandas
  `NaN`) is modelled as `Option.none` where the source tests `np.isnan`.
* `src/python/data_processor.py` — the `clean_sold_prices` outlier filter,
  modelled over `ℝ` (the standard-deviation fallback takes a square root).
* `src/python/simulator.py` — the vectorized `run_portfolio_monte_carlo`
  engine, modelled over `ℝ`, with the external seeded pseudorandom generator
  represented as a stream of draws indexed by draw position.
-/

namespace Backtest

/-- `BacktestConfig` from `backtester.py` (lines 14-23). -/
structure BacktestConfig where
  initial_cash : ℚ := 100000
  spread_bps : ℚ := 200
  position_limit : ℤ := 10
  fee_bps : ℚ := 125
  friction_bps : ℚ := 50
  fill_proximity_pct : ℚ := 1/50
  volume_scale : ℚ := 1
  deriving DecidableEq

/-- One period of the ingested time series (`ts_df` rows).  `fill_price` and
`best_ask` values may be `NaN` in the source; those are modelled as `none`.
The `date` column only orders the rows (sorting is done by the external
pandas library); rows are modelled post-sort.  The `volume` column created by
`ingest` is never read by the engine and is omitted. -/
structure ObsRow where
  fillPrice : Option ℚ
  fillVol : ℚ
  bestAsk : Option ℚ
  deriving DecidableEq

/-- The observation series handed to `Backtester.ingest`: the rows plus
whether the DataFrame carries a `best_ask` column at all (pandas column
presence is a property of the whole frame, not of a row). -/
structure ObsSeries where
  rows : List ObsRow
  hasBestAskCol : Bool
  deriving DecidableEq

/-- `Backtester.ingest` lines 58-64: when the `best_ask` column is absent the
whole column is set to the `fill_price` column. -/
def ingestRow (hasBestAskCol : Bool) (r : ObsRow) : ObsRow :=
  { r with bestAsk := if hasBestAskCol then r.bestAsk else r.fillPrice }

/-- The row list produced by `Backtester.ingest`. -/
def ingest (s : ObsSeries) : List ObsRow :=
  s.rows.map (ingestRow s.hasBestAskCol)

/-- `Backtester._synthetic_order_book` lines 70-79.  On the rows produced by
`ingest` the `best_ask` key always exists, so `row.get("best_ask", ...)`
returns that value (possibly `NaN`, modelled `none`); the nested
`row.get("fill_price", nan)` default is unreachable there. -/
def syntheticOrderBook (cfg : BacktestConfig) (r : ObsRow) : Option (ℚ × ℚ) :=
  match r.bestAsk with
  | none => none
  | some ask =>
    let spread := ask * (cfg.spread_bps / 10000)
    some (ask - spread, ask)

inductive Side where
  | buy
  | sell
  deriving DecidableEq

/-- `Backtester.simulate_fill` lines 81-103. -/
def simulateFill (cfg : BacktestConfig) (side : Side) (price : ℚ) (r : ObsRow) : Bool :=
  match r.fillPrice with
  | none => false
  | some fp =>
    if r.fillVol * cfg.volume_scale ≤ 0 then false
    else
      match side with
      | .buy => decide (fp * (1 - cfg.fill_proximity_pct) ≤ price)
      | .sell => decide (price ≤ fp * (1 + cfg.fill_proximity_pct))

/-- Python `int(...)` on a float: truncation toward zero. -/
def pyInt (q : ℚ) : ℤ := if 0 ≤ q then ⌊q⌋ else ⌈q⌉

/-- Python `int(fill_vol) or 1`: `0` is falsy, every other integer is kept. -/
def pyIntOr1 (q : ℚ) : ℤ :=
  if pyInt q = 0 then 1 else pyInt q

/-- `fee_mult` from `run` line 125. -/
def feeMult (cfg : BacktestConfig) : ℚ :=
  1 - (cfg.fee_bps + cfg.friction_bps) / 10000

/-- Mutable loop state of `Backtester.run` lines 111-124. -/
structure BState where
  cash : ℚ
  position : ℤ
  costBasis : ℚ
  equityCurve : List ℚ
  holdCurve : List ℚ
  tradePnls : List ℚ
  invDaysStale : ℚ
  totalInvRisk : ℚ
  peakEquity : ℚ
  maxDd : ℚ
  deriving DecidableEq

/-- Initial loop state (lines 111-124). -/
def initState (cfg : BacktestConfig) : BState :=
  { cash := cfg.initial_cash
    position := 0
    costBasis := 0
    equityCurve := [cfg.initial_cash]
    holdCurve := [cfg.initial_cash]
    tradePnls := []
    invDaysStale := 0
    totalInvRisk := 0
    peakEquity := cfg.initial_cash
    maxDd := 0 }

/-- Size of a buy fill (line 144): `min(int(fill_vol) or 1, position_limit - position)`. -/
def buySize (cfg : BacktestConfig) (s : BState) (r : ObsRow) : ℤ :=
  min (pyIntOr1 r.fillVol) (cfg.position_limit - s.position)

/-- Size of a sell fill (line 154): `min(int(fill_vol) or 1, position)`. -/
def sellSize (s : BState) (r : ObsRow) : ℤ :=
  min (pyIntOr1 r.fillVol) s.position

/-- Buy branch of `run`, lines 141-149.  Python's `cost = fill_price * fee_mult`
is written out inline; inside the branch `fill_price` is non-`NaN` (otherwise
`simulate_fill` returned `False`), so `getD 0` only makes the read total. -/
def buyStep (cfg : BacktestConfig) (bid : ℚ) (s : BState) (r : ObsRow) : BState :=
  if s.position < cfg.position_limit ∧ simulateFill cfg .buy bid r = true then
    if r.fillPrice.getD 0 * feeMult cfg * r.fillVol ≤ s.cash then
      { s with
        cash := s.cash - r.fillPrice.getD 0 * feeMult cfg * ((buySize cfg s r : ℤ) : ℚ)
        costBasis := s.costBasis + r.fillPrice.getD 0 * feeMult cfg * ((buySize cfg s r : ℤ) : ℚ)
        position := s.position + buySize cfg s r
        tradePnls := s.tradePnls ++ [0]
        invDaysStale := 0 }
    else s
  else s

/-- Sell branch of `run`, lines 152-160.  Python's
`proceeds = fill_price * fee_mult * fill_vol` is written out inline. -/
def sellStep (cfg : BacktestConfig) (ask : ℚ) (s : BState) (r : ObsRow) : BState :=
  if 0 < s.position ∧ simulateFill cfg .sell ask r = true then
    { s with
      cash := s.cash +
        r.fillPrice.getD 0 * feeMult cfg * r.fillVol * ((sellSize s r : ℤ) : ℚ) /
          ((max (sellSize s r) 1 : ℤ) : ℚ)
      tradePnls := s.tradePnls ++
        [(r.fillPrice.getD 0 - s.costBasis / ((max s.position 1 : ℤ) : ℚ)) * ((sellSize s r : ℤ) : ℚ)]
      costBasis := s.costBasis - s.costBasis / ((max s.position 1 : ℤ) : ℚ) * ((sellSize s r : ℤ) : ℚ)
      position := s.position - sellSize s r
      invDaysStale := 0 }
  else s

/-- The per-period inventory-risk penalty (lines 162-167): zero when flat. -/
def stalePenalty (s : BState) (r : ObsRow) : ℚ :=
  if 0 < s.position then
    (s.position : ℚ) * r.fillPrice.getD 0 * (1/1000) * min ((s.invDaysStale + 1) / 30) 1
  else 0

/-- Staleness accrual, inventory-risk charge, equity and hold-curve recording
(lines 162-179).  A `NaN` trade price with a live order book would poison the
penalty term (and hence cash) with `NaN` in the source; rows model the price
as absent and the penalty factor `fillPrice.getD 0` is then `0`.  No claim
below exercises that corner. -/
def postTrade (firstFillPrice holdCashAfterBuy : ℚ)
    (s : BState) (r : ObsRow) : BState :=
  let cash := s.cash - stalePenalty s r
  let equity := cash + (s.position : ℚ) * r.fillPrice.getD 0
  let peak := max s.peakEquity equity
  { s with
    invDaysStale := s.invDaysStale + 1
    totalInvRisk := s.totalInvRisk + stalePenalty s r
    cash := cash
    equityCurve := s.equityCurve ++ [equity]
    peakEquity := peak
    maxDd := max s.maxDd (if 0 < peak then (peak - equity) / peak else 0)
    holdCurve := s.holdCurve ++
      [holdCashAfterBuy + (if 0 < firstFillPrice then 1 else 0) * r.fillPrice.getD 0] }

/-- One iteration of the period loop (lines 127-179).  When the synthetic
book is missing (`bid`/`ask` `NaN`) the loop records a mark-to-market equity
point — at the current period's trade price, `0` if that is absent — and
`continue`s, skipping all execution logic. -/
def stepRow (cfg : BacktestConfig) (firstFillPrice holdCashAfterBuy : ℚ)
    (s : BState) (r : ObsRow) : BState :=
  match syntheticOrderBook cfg r with
  | none =>
    { s with
      equityCurve := s.equityCurve ++ [s.cash + (s.position : ℚ) * r.fillPrice.getD 0]
      holdCurve := s.holdCurve ++
        [holdCashAfterBuy + (if firstFillPrice ≠ 0 then 1 else 0) * r.fillPrice.getD 0] }
  | some (bid, ask) =>
    postTrade firstFillPrice holdCashAfterBuy
      (sellStep cfg ask (buyStep cfg bid s r) r) r

/-- `first_fill_price` (lines 115-117): the first row's trade price, `0.0` if
`NaN`. -/
def firstFillPriceOf (rows : List ObsRow) : ℚ :=
  match rows.head? with
  | none => 0
  | some r => r.fillPrice.getD 0

/-- `hold_cash_after_buy` (line 118). -/
def holdCashAfterBuyOf (cfg : BacktestConfig) (ffp : ℚ) : ℚ :=
  if 0 < ffp then cfg.initial_cash - ffp else cfg.initial_cash

/-- The loop of `Backtester.run` over the first `rows` of the ingested
series, as a fold.  The post-loop metric aggregation (lines 181-199) is not
needed by any claim and is not modelled. -/
def runLoop (cfg : BacktestConfig) (rows : List ObsRow) : BState :=
  let ffp := firstFillPriceOf rows
  rows.foldl (stepRow cfg ffp (holdCashAfterBuyOf cfg ffp)) (initState cfg)

/-- `Backtester.run` after `ingest`, through the end of the period loop. -/
def runBacktest (cfg : BacktestConfig) (s : ObsSeries) : BState :=
  runLoop cfg (ingest s)

/-- The reference price as the specification words it for claim C4: "the
period's best-ask when present and otherwise the period's trade price". -/
def specReference (r : ObsRow) : Option ℚ :=
  match r.bestAsk with
  | some a => some a
  | none => r.fillPrice

/-- The synthetic order book as the specification words it for claim C4:
ask = reference, bid = reference − reference × spread fraction. -/
def specSyntheticBook (cfg : BacktestConfig) (r : ObsRow) : Option (ℚ × ℚ) :=
  match specReference r with
  | none => none
  | some a => some (a - a * (cfg.spread_bps / 10000), a)

/-- The position invariant of claim C9. -/
def PosInv (cfg : BacktestConfig) (s : BState) : Prop :=
  0 ≤ s.position ∧ s.position ≤ cfg.position_limit

end Backtest


namespace DataProc

/-- numpy's ascending sort, used by `np.percentile`; modelled with insertion
sort over `ℝ`. -/
noncomputable def sortR (l : List ℝ) : List ℝ := l.insertionSort (· ≤ ·)

/-- `np.percentile(p, q)` with the default linear interpolation: on the
sorted data `s` of length `n`, the virtual index is `q/100 * (n-1)` and the
value is interpolated between the two neighbouring entries. -/
noncomputable def percentileR (q : ℚ) (l : List ℝ) : ℝ :=
  let s := sortR l
  let pos : ℚ := q / 100 * ((s.length : ℚ) - 1)
  let i : ℕ := (⌊pos⌋).toNat
  s.getD i 0 + ((pos - ⌊pos⌋ : ℚ) : ℝ) * (s.getD (i + 1) (s.getD i 0) - s.getD i 0)

/-- `np.std`: population standard deviation. -/
noncomputable def npStd (l : List ℝ) : ℝ :=
  Real.sqrt ((l.map (fun x => (x - l.sum / l.length) ^ 2)).sum / l.length)

/-- `clean_sold_prices` from `data_processor.py` lines 14-38.  `np.isfinite`
never fails in the real-number model, so the first mask reduces to the
`p >= min_price` test; `np.std(p) or 1e-6` keeps the standard deviation
unless it is exactly `0.0` (falsy). -/
noncomputable def cleanSoldPrices (minPrice iqrMult : ℝ) (percentileFloor : ℚ)
    (prices : List ℝ) : List ℝ :=
  let p := prices.filter (fun x => decide (minPrice ≤ x))
  if p.length = 0 then p
  else if p.length ≤ 2 then p
  else
    let q1 := percentileR 25 p
    let q3 := percentileR 75 p
    let iqr := if q3 - q1 ≤ 0 then (if npStd p = 0 then 1e-6 else npStd p) else q3 - q1
    let low := max minPrice (max (percentileR percentileFloor p) (q1 - iqrMult * iqr))
    let high := q3 + iqrMult * iqr
    p.filter (fun x => decide (low ≤ x) && decide (x ≤ high))

/-- `clean_sold_prices` at its default parameters
(`min_price = 5`, `iqr_mult = 1.5`, `percentile_floor = 1`). -/
noncomputable def cleanDefault (prices : List ℝ) : List ℝ :=
  cleanSoldPrices 5 1.5 1 prices

end DataProc

namespace Sim

/-- One entry of `sku_params` (`simulator.py` line 37). -/
structure SkuParams where
  mu : ℝ
  sigma : ℝ
  liquidity_score : ℝ

instance : Inhabited SkuParams := ⟨⟨0, 0, 0⟩⟩

/-- `PortfolioSimulatorConfig` from `simulator.py` lines 31-48.  The
`sku_params` dict is modelled as an association list in insertion order; the
optional `s0_per_sku` dict likewise. -/
structure PortfolioSimulatorConfig where
  initial_capital : ℝ := 100000
  num_days : ℕ := 252
  num_paths : ℕ := 10000
  sku_params : List (String × SkuParams) := []
  s0_per_sku : Option (List (String × ℝ)) := none
  market_beta : ℝ := 0.5
  volume_threshold : ℝ := 0.1
  staleness_ruin_days : ℕ := 180
  staleness_haircut : ℝ := 0
  ruin_pct : ℝ := 0.5
  seed : Option ℕ := none

/-- Lines 62-65: fall back to one default SKU when `sku_params` is empty. -/
def effParams (cfg : PortfolioSimulatorConfig) : List (String × SkuParams) :=
  if cfg.sku_params.isEmpty then [("Default", ⟨0.05, 0.35, 0.5⟩)] else cfg.sku_params

/-- `K`, the number of SKUs (line 67). -/
def numSkus (cfg : PortfolioSimulatorConfig) : ℕ := (effParams cfg).length

/-- The `k`-th SKU label (line 66). -/
def labelOf (cfg : PortfolioSimulatorConfig) (k : ℕ) : String :=
  ((effParams cfg).getD k default).1

/-- `mu_arr[k]` (line 71). -/
noncomputable def muOf (cfg : PortfolioSimulatorConfig) (k : ℕ) : ℝ :=
  ((effParams cfg).getD k default).2.mu

/-- `sigma_arr[k]` before the clamp (line 72). -/
noncomputable def sigmaRawOf (cfg : PortfolioSimulatorConfig) (k : ℕ) : ℝ :=
  ((effParams cfg).getD k default).2.sigma

/-- `sigma_arr[k]` after the clamp `np.maximum(sigma_arr, 1e-6)` (line 75). -/
noncomputable def sigmaOf (cfg : PortfolioSimulatorConfig) (k : ℕ) : ℝ :=
  max (sigmaRawOf cfg k) 1e-6

/-- `liq_arr[k]` (line 73). -/
noncomputable def liqOf (cfg : PortfolioSimulatorConfig) (k : ℕ) : ℝ :=
  ((effParams cfg).getD k default).2.liquidity_score

/-- `s0[k]` (lines 77-80): Python's `if config.s0_per_sku` is falsy both for
`None` and for an empty dict. -/
noncomputable def s0Of (cfg : PortfolioSimulatorConfig) (k : ℕ) : ℝ :=
  match cfg.s0_per_sku with
  | some m => if m.isEmpty then 100 else (m.lookup (labelOf cfg k)).getD 100
  | none => 100

/-- `shares[k]` (lines 83-84): equal-weight allocation. -/
noncomputable def sharesOf (cfg : PortfolioSimulatorConfig) (k : ℕ) : ℝ :=
  (cfg.initial_capital / (numSkus cfg : ℝ)) / s0Of cfg k

/-- `dt = 1/252` (line 68). -/
noncomputable def dtSim : ℝ := 1 / 252

/-- `sqrt_dt` (line 69). -/
noncomputable def sqrtDt : ℝ := Real.sqrt dtSim

/-- Number of draws consumed by `rng.standard_normal((P, T))` (line 87). -/
def numMarketDraws (cfg : PortfolioSimulatorConfig) : ℕ :=
  cfg.num_paths * cfg.num_days

/-- Total number of draws consumed by the engine: `P*T` market shocks, then
`P*T*K` idiosyncratic shocks, then `P*T*K` volume shocks. -/
def numDraws (cfg : PortfolioSimulatorConfig) : ℕ :=
  numMarketDraws cfg + 2 * (numMarketDraws cfg * numSkus cfg)

/-- Stream position of the market shock `Z_market[p, t]`: the `(P, T)` array
is filled row-major from the first `P*T` draws. -/
def mktIdx (cfg : PortfolioSimulatorConfig) (p t : ℕ) : ℕ :=
  p * cfg.num_days + t

/-- Stream position of `Z_idio[p, t, k]`: the `(P, T, K)` array is filled
row-major from the next `P*T*K` draws (line 88). -/
def idioIdx (cfg : PortfolioSimulatorConfig) (p t k : ℕ) : ℕ :=
  numMarketDraws cfg + (p * cfg.num_days + t) * numSkus cfg + k

/-- Stream position of `Z_vol[p, t, k]`: the last `P*T*K` draws (line 101). -/
def volIdx (cfg : PortfolioSimulatorConfig) (p t k : ℕ) : ℕ :=
  numMarketDraws cfg + numMarketDraws cfg * numSkus cfg +
    ((p * cfg.num_days + t) * numSkus cfg + k)

/-- `beta = np.clip(config.market_beta, 0.0, 1.0)` (line 89). -/
noncomputable def betaClip (cfg : PortfolioSimulatorConfig) : ℝ :=
  min (max cfg.market_beta 0) 1

/-- The blended shock `Z[p, t, k]` (line 90), reading the generator stream
`g` at the positions fixed by the draw order. -/
noncomputable def shockZ (cfg : PortfolioSimulatorConfig) (g : ℕ → ℝ) (p t k : ℕ) : ℝ :=
  betaClip cfg * g (mktIdx cfg p t) +
    Real.sqrt (1 - betaClip cfg ^ 2) * g (idioIdx cfg p t k)

/-- `log_returns[p, t, k]` (lines 93-95). -/
noncomputable def logRet (cfg : PortfolioSimulatorConfig) (g : ℕ → ℝ) (p t k : ℕ) : ℝ :=
  (muOf cfg k - 0.5 * sigmaOf cfg k ^ 2) * dtSim +
    sigmaOf cfg k * sqrtDt * shockZ cfg g p t k

/-- `S[p, T, k]`, the terminal price (lines 96-98, 114):
`s0 * exp(cumsum of log returns)` taken at the last step. -/
noncomputable def endPrice (cfg : PortfolioSimulatorConfig) (g : ℕ → ℝ) (p k : ℕ) : ℝ :=
  s0Of cfg k * Real.exp (∑ t ∈ Finset.range cfg.num_days, logRet cfg g p t k)

/-- `volume[p, t, k]` (lines 101-102). -/
noncomputable def volumeOf (cfg : PortfolioSimulatorConfig) (g : ℕ → ℝ) (p t k : ℕ) : ℝ :=
  liqOf cfg k * Real.exp (0.3 * g (volIdx cfg p t k))

/-- `below[p, t, k] = volume < volume_threshold` (line 105). -/
noncomputable def belowThreshold (cfg : PortfolioSimulatorConfig) (g : ℕ → ℝ)
    (p k t : ℕ) : Bool :=
  decide (volumeOf cfg g p t k < cfg.volume_threshold)

/-- `days_stale_at_end` for one `(path, sku)` (lines 106-109): `np.argmin`
over the time-reversed 0/1 array returns the first position from the end
whose day is not below threshold (0 when every day is below, overridden to
`T` by the `all_below` mask). -/
def daysStaleAtEnd (T : ℕ) (b : ℕ → Bool) : ℕ :=
  if (List.range T).all b then T
  else (List.range T).findIdx (fun j => !(b (T - 1 - j)))

/-- `is_stale[p, k]` (line 110). -/
noncomputable def isStale (cfg : PortfolioSimulatorConfig) (g : ℕ → ℝ) (p k : ℕ) : Bool :=
  decide (cfg.staleness_ruin_days ≤ daysStaleAtEnd cfg.num_days (belowThreshold cfg g p k))

/-- `haircut[p, k]` (line 111). -/
noncomputable def haircutOf (cfg : PortfolioSimulatorConfig) (g : ℕ → ℝ) (p k : ℕ) : ℝ :=
  if isStale cfg g p k then cfg.staleness_haircut else 1

/-- `value_per_sku[p, k]` (line 115). -/
noncomputable def valuePerSku (cfg : PortfolioSimulatorConfig) (g : ℕ → ℝ) (p k : ℕ) : ℝ :=
  sharesOf cfg k * endPrice cfg g p k * haircutOf cfg g p k

/-- `final_values[p]` (line 116). -/
noncomputable def finalValue (cfg : PortfolioSimulatorConfig) (g : ℕ → ℝ) (p : ℕ) : ℝ :=
  ∑ k ∈ Finset.range (numSkus cfg), valuePerSku cfg g p k

/-- The terminal-value array (line 116). -/
noncomputable def finalValues (cfg : PortfolioSimulatorConfig) (g : ℕ → ℝ) : List ℝ :=
  (List.range cfg.num_paths).map (finalValue cfg g)

/-- `ruin_threshold` (line 119). -/
noncomputable def ruinThr (cfg : PortfolioSimulatorConfig) : ℝ :=
  cfg.initial_capital * cfg.ruin_pct

/-- `ruin_paths[p]` (lines 120, 122). -/
noncomputable def isRuin (cfg : PortfolioSimulatorConfig) (g : ℕ → ℝ) (p : ℕ) : Bool :=
  decide (finalValue cfg g p < ruinThr cfg)

/-- `had_stale[p]` (line 123). -/
noncomputable def hadStale (cfg : PortfolioSimulatorConfig) (g : ℕ → ℝ) (p : ℕ) : Bool :=
  (List.range (numSkus cfg)).any (fun k => isStale cfg g p k)

/-- `probability_of_ruin` (line 120): the mean of a boolean array is the
count of true entries over the length. -/
noncomputable def probRuin (cfg : PortfolioSimulatorConfig) (g : ℕ → ℝ) : ℝ :=
  ((List.range cfg.num_paths).countP (fun p => isRuin cfg g p) : ℝ) / (cfg.num_paths : ℝ)

/-- `probability_of_ruin_staleness` (lines 122-124). -/
noncomputable def probRuinStaleness (cfg : PortfolioSimulatorConfig) (g : ℕ → ℝ) : ℝ :=
  ((List.range cfg.num_paths).countP (fun p => isRuin cfg g p && hadStale cfg g p) : ℝ) /
    (cfg.num_paths : ℝ)

/-- `np.mean`. -/
noncomputable def listMean (l : List ℝ) : ℝ := l.sum / (l.length : ℝ)

/-- `np.std` (population standard deviation). -/
noncomputable def listStd (l : List ℝ) : ℝ :=
  Real.sqrt (((l.map (fun x => (x - listMean l) ^ 2)).sum) / (l.length : ℝ))

/-- The result dict of `run_portfolio_monte_carlo` (lines 126-138). -/
structure PortfolioResult where
  final_values : List ℝ
  mean : ℝ
  std : ℝ
  p5 : ℝ
  p50 : ℝ
  p95 : ℝ
  probability_of_ruin : ℝ
  probability_of_ruin_staleness : ℝ
  staleness_days_threshold : ℕ
  num_skus : ℕ
  sku_labels : List String

/-- The body of `run_portfolio_monte_carlo` (lines 59-138) as a function of
the configuration and of the seeded generator's stream of standard-normal
draws `g`. -/
noncomputable def mcResult (cfg : PortfolioSimulatorConfig) (g : ℕ → ℝ) : PortfolioResult :=
  { final_values := finalValues cfg g
    mean := listMean (finalValues cfg g)
    std := listStd (finalValues cfg g)
    p5 := DataProc.percentileR 5 (finalValues cfg g)
    p50 := DataProc.percentileR 50 (finalValues cfg g)
    p95 := DataProc.percentileR 95 (finalValues cfg g)
    probability_of_ruin := probRuin cfg g
    probability_of_ruin_staleness := probRuinStaleness cfg g
    staleness_days_threshold := cfg.staleness_ruin_days
    num_skus := numSkus cfg
    sku_labels := (effParams cfg).map Prod.fst }

/-- Modelled from the spec: the external seeded pseudorandom generator
(`np.random.default_rng(seed)` — numpy library code, not part of this
repository), which the spec constrains only to be a deterministic function
of the seed producing one fixed stream of draws.  The concrete mixing
formula below is an arbitrary placeholder; no theorem depends on its values,
only on its being a function of the seed. -/
def streamOfSeed (seed : ℕ) : ℕ → ℝ :=
  fun n => (((seed + 1) * 2654435761 + n * 40503) % 4294967296 : ℕ)

/-- `run_portfolio_monte_carlo` (line 59): a fixed seed selects the
deterministic stream; `seed = None` lets numpy pull operating-system
entropy, modelled by the explicit `entropy` stream argument. -/
noncomputable def runPortfolioMonteCarlo (cfg : PortfolioSimulatorConfig)
    (entropy : ℕ → ℝ) : PortfolioResult :=
  match cfg.seed with
  | some s => mcResult cfg (streamOfSeed s)
  | none => mcResult cfg entropy

/-- The specification's staleness notion for claim C3: the length of the run
of consecutive below-threshold days ending exactly at the final step. -/
def trailingRun : ℕ → (ℕ → Bool) → ℕ
  | 0, _ => 0
  | T + 1, b => if b T then trailingRun T b + 1 else 0

/-- `sku_params` with the `k`-th entry's volatility replaced, for claim C10. -/
def setSigmaList : List (String × SkuParams) → ℕ → ℝ → List (String × SkuParams)
  | [], _, _ => []
  | x :: rest, 0, v => (x.1, { x.2 with sigma := v }) :: rest
  | x :: rest, k + 1, v => x :: setSigmaList rest k v

/-- The configuration with the `k`-th asset's volatility replaced by `v`. -/
def setSigma (cfg : PortfolioSimulatorConfig) (k : ℕ) (v : ℝ) : PortfolioSimulatorConfig :=
  { cfg with sku_params := setSigmaList cfg.sku_params k v }

end Sim

/-! ### Theorems -/

namespace Backtest

theorem pyInt_nonneg {q : ℚ} (h : 0 ≤ q) : 0 ≤ pyInt q := by
  unfold pyInt
  rw [if_pos h]
  exact Int.floor_nonneg.mpr h

theorem pyIntOr1_pos {q : ℚ} (h : 0 ≤ q) : 1 ≤ pyIntOr1 q := by
  unfold pyIntOr1
  have h0 := pyInt_nonneg h
  split_ifs with hz
  · exact le_refl 1
  · omega

/-- A fill report implies the period's raw volume is positive, provided the
volume-scale multiplier is non-negative. -/
theorem simulateFill_fillVol_pos {cfg : BacktestConfig} {side : Side} {price : ℚ}
    {r : ObsRow} (hs : 0 ≤ cfg.volume_scale)
    (h : simulateFill cfg side price r = true) : 0 < r.fillVol := by
  by_contra hv
  push_neg at hv
  have h2 : r.fillVol * cfg.volume_scale ≤ 0 := mul_nonpos_iff.mpr (Or.inr ⟨hv, hs⟩)
  cases hfp : r.fillPrice with
  | none => simp [simulateFill, hfp] at h
  | some p => simp [simulateFill, hfp, h2] at h

/-- C4 (amended): the synthetic order book's reference price is the period's
best-ask value whenever the series carries a best-ask column (a period whose
best-ask is missing then yields no order book, even when a trade price is
available); only when the series lacks best-ask data entirely does `ingest`
substitute the trade price as best-ask.  Ask = reference and bid =
reference − reference × spread fraction. -/
theorem c4_synthetic_book (cfg : BacktestConfig) (hasCol : Bool) (r : ObsRow) :
    syntheticOrderBook cfg (ingestRow hasCol r) =
      match (if hasCol then r.bestAsk else r.fillPrice) with
      | none => none
      | some a => some (a - a * (cfg.spread_bps / 10000), a) := by
  obtain ⟨fp, v, ba⟩ := r
  cases hasCol <;> cases fp <;> cases ba <;> rfl

/-- C4 counterexample: in a series that has a best-ask column, a period with
a missing best-ask but a present trade price of 100 gets no synthetic order
book, while the claim's reading ("best-ask when present, otherwise the trade
price") predicts bid 98 / ask 100 at the default 2% spread. -/
theorem c4_counterexample :
    syntheticOrderBook {} (ingestRow true ⟨some 100, 1, none⟩) ≠
      specSyntheticBook {} ⟨some 100, 1, none⟩ := by decide

/-- C5 (amended): when a period has no synthetic order book, execution logic
is skipped (cash, position, cost basis, staleness counter and trade log are
untouched) and an equity point is still recorded — but the mark-to-market
price is the current period's trade price, `0` when that is absent; the last
previously-known trade price is not consulted. -/
theorem c5_missing_reference (cfg : BacktestConfig) (ffp hc : ℚ) (s : BState)
    (r : ObsRow) (h : syntheticOrderBook cfg r = none) :
    stepRow cfg ffp hc s r =
      { s with
        equityCurve := s.equityCurve ++ [s.cash + (s.position : ℚ) * r.fillPrice.getD 0]
        holdCurve := s.holdCurve ++
          [hc + (if ffp ≠ 0 then 1 else 0) * r.fillPrice.getD 0] } := by
  unfold stepRow
  rw [h]

theorem c5_missing_reference_witness :
    (stepRow ({} : BacktestConfig) 0 100000 (initState {}) ⟨none, 1, none⟩).equityCurve =
      [100000, 100000] := by
  rw [c5_missing_reference {} 0 100000 (initState {}) ⟨none, 1, none⟩ rfl]
  norm_num [initState]

/-- C5 counterexample: first period trades at 50 (best-ask 60, so the buy
fills and one unit is held) and the second period has neither best-ask nor
trade price.  The claim predicts the final equity point marks the open unit
at the last known trade price 50; the engine marks it at 0. -/
theorem c5_counterexample :
    (runBacktest {} ⟨[⟨some 50, 1, some 60⟩, ⟨none, 1, none⟩], true⟩).equityCurve.getLast? ≠
      some ((runBacktest {} ⟨[⟨some 50, 1, some 60⟩, ⟨none, 1, none⟩], true⟩).cash +
        ((runBacktest {} ⟨[⟨some 50, 1, some 60⟩, ⟨none, 1, none⟩], true⟩).position : ℚ) * 50) := by
  norm_num [runBacktest, runLoop, ingest, ingestRow, firstFillPriceOf, holdCashAfterBuyOf,
    initState, stepRow, syntheticOrderBook, buyStep, sellStep, postTrade, stalePenalty,
    simulateFill, buySize, sellSize, pyIntOr1, pyInt, feeMult, List.foldl]

end Backtest

namespace Backtest

/-- C6 (amended): when a sell fills, the fill size is
`min(int(raw period volume) or 1, position)` — the volume-scale multiplier
plays no part in sizing — and cash is credited the proceeds of the *entire
raw period volume*, `trade_price × (1 − fee − friction) × fill_volume`,
independent of the fill size; realized P&L is
`(trade_price − cost_basis/position) × size`, and cost basis and position are
reduced proportionally to the size. -/
theorem c6_sell_fill (cfg : BacktestConfig) (ask : ℚ) (s : BState) (r : ObsRow) (p : ℚ)
    (hpos : 0 < s.position) (hfill : simulateFill cfg .sell ask r = true)
    (hp : r.fillPrice = some p) (hs : 0 ≤ cfg.volume_scale) :
    sellStep cfg ask s r =
      { s with
        cash := s.cash + p * feeMult cfg * r.fillVol
        tradePnls := s.tradePnls ++
          [(p - s.costBasis / (s.position : ℚ)) * ((sellSize s r : ℤ) : ℚ)]
        costBasis := s.costBasis - s.costBasis / (s.position : ℚ) * ((sellSize s r : ℤ) : ℚ)
        position := s.position - sellSize s r
        invDaysStale := 0 } := by
  have hv : 0 < r.fillVol := simulateFill_fillVol_pos hs hfill
  have hsz : 1 ≤ sellSize s r := le_min (pyIntOr1_pos hv.le) hpos
  have hne : ((sellSize s r : ℤ) : ℚ) ≠ 0 := by
    exact_mod_cast (by omega : (sellSize s r : ℤ) ≠ 0)
  unfold sellStep
  rw [if_pos ⟨hpos, hfill⟩, hp]
  simp only [Option.getD_some]
  rw [max_eq_left hsz, max_eq_left (by omega : (1 : ℤ) ≤ s.position),
    mul_div_cancel_right₀ (p * feeMult cfg * r.fillVol) hne]

theorem c6_sell_fill_witness :
    (sellStep ({ fee_bps := 0, friction_bps := 0 } : BacktestConfig) 100
        ⟨0, 2, 100, [], [], [], 5, 0, 0, 0⟩ ⟨some 100, 1, some 100⟩).cash = 100 := by
  rw [c6_sell_fill ({ fee_bps := 0, friction_bps := 0 } : BacktestConfig) 100
    ⟨0, 2, 100, [], [], [], 5, 0, 0, 0⟩ ⟨some 100, 1, some 100⟩ 100
    (by norm_num) (by norm_num [simulateFill]) rfl (by norm_num)]
  norm_num [feeMult]

/-- C6 counterexample: position 2, cost basis 100, trade price 100, raw
volume 1.5, no fees.  The fill size is 1 (position drops from 2 to 1), so the
claim predicts a cash credit of `1 × 100 × 1 = 100`; the engine credits the
whole-volume proceeds `100 × 1.5 = 150`. -/
theorem c6_counterexample :
    (sellStep ({ fee_bps := 0, friction_bps := 0 } : BacktestConfig) 100
        ⟨0, 2, 100, [], [], [], 0, 0, 0, 0⟩ ⟨some 100, 3/2, some 100⟩).position = 1 ∧
      (sellStep ({ fee_bps := 0, friction_bps := 0 } : BacktestConfig) 100
          ⟨0, 2, 100, [], [], [], 0, 0, 0, 0⟩ ⟨some 100, 3/2, some 100⟩).cash ≠
        0 + (1 : ℚ) * 100 * feeMult { fee_bps := 0, friction_bps := 0 } := by
  constructor <;>
    norm_num [sellStep, simulateFill, sellSize, pyIntOr1, pyInt, feeMult]

/-- C7 (amended): a buy fill executes when the bid would fill and cash covers
`trade_price × (1 − fee − friction) × raw period volume` — a proxy that can
understate the actual debit; the fill size is
`min(int(raw volume) or 1, position_limit − position)`, cash is debited and
cost basis credited `size × trade_price × (1 − fee − friction)`, and the
position grows by the size.  (Because the sufficiency check uses the raw
volume rather than the size, cash can be driven negative.) -/
theorem c7_buy_fill (cfg : BacktestConfig) (bid : ℚ) (s : BState) (r : ObsRow) (p : ℚ)
    (hlim : s.position < cfg.position_limit)
    (hfill : simulateFill cfg .buy bid r = true) (hp : r.fillPrice = some p)
    (hcash : p * feeMult cfg * r.fillVol ≤ s.cash) :
    buyStep cfg bid s r =
      { s with
        cash := s.cash - p * feeMult cfg * ((buySize cfg s r : ℤ) : ℚ)
        costBasis := s.costBasis + p * feeMult cfg * ((buySize cfg s r : ℤ) : ℚ)
        position := s.position + buySize cfg s r
        tradePnls := s.tradePnls ++ [0]
        invDaysStale := 0 } := by
  unfold buyStep
  rw [if_pos ⟨hlim, hfill⟩, hp]
  simp only [Option.getD_some]
  rw [if_pos hcash]

theorem c7_buy_fill_witness :
    (buyStep ({ fee_bps := 0, friction_bps := 0 } : BacktestConfig) 100
        ⟨1000, 0, 0, [], [], [], 0, 0, 0, 0⟩ ⟨some 100, 2, none⟩).position = 2 := by
  rw [c7_buy_fill ({ fee_bps := 0, friction_bps := 0 } : BacktestConfig) 100
    ⟨1000, 0, 0, [], [], [], 0, 0, 0, 0⟩ ⟨some 100, 2, none⟩ 100
    (by norm_num) (by norm_num [simulateFill]) rfl (by norm_num [feeMult])]
  norm_num [buySize, pyIntOr1, pyInt]

/-- C7 counterexample: cash 60, trade price 100, raw volume 0.5, no fees.
The sufficiency check passes (`60 ≥ 100 × 0.5`), the fill size floors to 1,
and the actual debit is 100 — the buy executes although cash cannot cover
it, leaving cash negative, contradicting "executes only when cash is
sufficient to cover the resulting debit". -/
theorem c7_counterexample :
    (buyStep ({ fee_bps := 0, friction_bps := 0 } : BacktestConfig) 100
        ⟨60, 0, 0, [], [], [], 0, 0, 0, 0⟩ ⟨some 100, 1/2, none⟩).position = 1 ∧
      (buyStep ({ fee_bps := 0, friction_bps := 0 } : BacktestConfig) 100
          ⟨60, 0, 0, [], [], [], 0, 0, 0, 0⟩ ⟨some 100, 1/2, none⟩).cash = -40 := by
  constructor <;>
    norm_num [buyStep, simulateFill, buySize, pyIntOr1, pyInt, feeMult]

theorem posInv_buyStep {cfg : BacktestConfig} (bid : ℚ) {s : BState} (r : ObsRow)
    (hs : 0 ≤ cfg.volume_scale) (h : PosInv cfg s) : PosInv cfg (buyStep cfg bid s r) := by
  unfold buyStep
  split_ifs with h1 h2
  · obtain ⟨hlim, hfill⟩ := h1
    have hv := simulateFill_fillVol_pos hs hfill
    have h1le := pyIntOr1_pos hv.le
    have hbs1 : 1 ≤ buySize cfg s r := le_min h1le (by omega)
    have hbs2 : buySize cfg s r ≤ cfg.position_limit - s.position := min_le_right _ _
    obtain ⟨ha, hb⟩ := h
    refine ⟨?_, ?_⟩
    · show 0 ≤ s.position + buySize cfg s r
      omega
    · show s.position + buySize cfg s r ≤ cfg.position_limit
      omega
  · exact h
  · exact h

theorem posInv_sellStep {cfg : BacktestConfig} (ask : ℚ) {s : BState} (r : ObsRow)
    (hs : 0 ≤ cfg.volume_scale) (h : PosInv cfg s) : PosInv cfg (sellStep cfg ask s r) := by
  unfold sellStep
  split_ifs with h1
  · obtain ⟨hpos, hfill⟩ := h1
    have hv := simulateFill_fillVol_pos hs hfill
    have h1le := pyIntOr1_pos hv.le
    have hs1 : 1 ≤ sellSize s r := le_min h1le hpos
    have hs2 : sellSize s r ≤ s.position := min_le_right _ _
    obtain ⟨ha, hb⟩ := h
    refine ⟨?_, ?_⟩
    · show 0 ≤ s.position - sellSize s r
      omega
    · show s.position - sellSize s r ≤ cfg.position_limit
      omega
  · exact h

theorem posInv_stepRow {cfg : BacktestConfig} (f hc : ℚ) {s : BState} (r : ObsRow)
    (hs : 0 ≤ cfg.volume_scale) (h : PosInv cfg s) :
    PosInv cfg (stepRow cfg f hc s r) := by
  unfold stepRow
  cases syntheticOrderBook cfg r with
  | none => exact h
  | some ba =>
    obtain ⟨bid, ask⟩ := ba
    exact posInv_sellStep ask r hs (posInv_buyStep bid r hs h)

theorem posInv_foldl {cfg : BacktestConfig} (f hc : ℚ) (hs : 0 ≤ cfg.volume_scale) :
    ∀ (rows : List ObsRow) (s : BState), PosInv cfg s →
      PosInv cfg (rows.foldl (stepRow cfg f hc) s)
  | [], _, h => h
  | r :: rows, _s, h => posInv_foldl f hc hs rows _ (posInv_stepRow f hc r hs h)

/-- C9: as long as every period's raw volume is non-negative and the
configuration has a non-negative position limit and volume scale, the
position after every period transition of the run stays within
`[0, position_limit]`. -/
theorem c9_position_limit_invariant (cfg : BacktestConfig) (series : ObsSeries)
    (_hvol : ∀ r ∈ series.rows, 0 ≤ r.fillVol) (hlim : 0 ≤ cfg.position_limit)
    (hs : 0 ≤ cfg.volume_scale) (n : ℕ) :
    0 ≤ (runLoop cfg ((ingest series).take n)).position ∧
      (runLoop cfg ((ingest series).take n)).position ≤ cfg.position_limit :=
  posInv_foldl _ _ hs ((ingest series).take n) (initState cfg) ⟨le_refl 0, hlim⟩

theorem c9_position_limit_invariant_witness :
    0 ≤ (runLoop ({} : BacktestConfig) ((ingest ⟨[⟨some 50, 1, some 50⟩], true⟩).take 1)).position ∧
      (runLoop ({} : BacktestConfig) ((ingest ⟨[⟨some 50, 1, some 50⟩], true⟩).take 1)).position ≤
        ({} : BacktestConfig).position_limit :=
  c9_position_limit_invariant {} ⟨[⟨some 50, 1, some 50⟩], true⟩
    (by simp) (by norm_num) (by norm_num) 1

end Backtest

namespace DataProc

/-- Every application of the cleaning step only filters its input. -/
theorem cleanSoldPrices_sublist (minPrice iqrMult : ℝ) (pf : ℚ) (l : List ℝ) :
    (cleanSoldPrices minPrice iqrMult pf l).Sublist l := by
  simp only [cleanSoldPrices]
  split_ifs
  all_goals first
    | exact List.filter_sublist l
    | exact (List.filter_sublist _).trans (List.filter_sublist l)

/-- C8 (amended): re-cleaning never adds prices back — the second application
yields a sublist of the first — but it can remove further prices, so the
cleaning step is not idempotent (see the counterexample). -/
theorem c8_clean_reapply_sublist (minPrice iqrMult : ℝ) (pf : ℚ) (prices : List ℝ) :
    (cleanSoldPrices minPrice iqrMult pf (cleanSoldPrices minPrice iqrMult pf prices)).Sublist
      (cleanSoldPrices minPrice iqrMult pf prices) :=
  cleanSoldPrices_sublist minPrice iqrMult pf _

theorem sorted_p5 : List.Sorted (· ≤ ·) ([10, 20, 30, 40, 50] : List ℝ) := by
  simp [List.sorted_cons]
  norm_num

theorem sorted_p4 : List.Sorted (· ≤ ·) ([20, 30, 40, 50] : List ℝ) := by
  simp [List.sorted_cons]
  norm_num

theorem percentile_p5_q25 : percentileR 25 ([10, 20, 30, 40, 50] : List ℝ) = 20 := by
  unfold percentileR sortR
  rw [List.Sorted.insertionSort_eq sorted_p5]
  norm_num [List.getD, List.getElem_cons_succ, List.getElem_cons_zero]
  try simp
  try norm_num

theorem percentile_p5_q75 : percentileR 75 ([10, 20, 30, 40, 50] : List ℝ) = 40 := by
  unfold percentileR sortR
  rw [List.Sorted.insertionSort_eq sorted_p5]
  norm_num [List.getD, List.getElem_cons_succ, List.getElem_cons_zero]
  try simp
  try norm_num

theorem percentile_p5_q1 : percentileR 1 ([10, 20, 30, 40, 50] : List ℝ) = 52/5 := by
  unfold percentileR sortR
  rw [List.Sorted.insertionSort_eq sorted_p5]
  norm_num [List.getD, List.getElem_cons_succ, List.getElem_cons_zero]
  try simp
  try norm_num

theorem percentile_p4_q25 : percentileR 25 ([20, 30, 40, 50] : List ℝ) = 55/2 := by
  unfold percentileR sortR
  rw [List.Sorted.insertionSort_eq sorted_p4]
  norm_num [List.getD, List.getElem_cons_succ, List.getElem_cons_zero]
  try simp
  try norm_num

theorem percentile_p4_q75 : percentileR 75 ([20, 30, 40, 50] : List ℝ) = 85/2 := by
  unfold percentileR sortR
  rw [List.Sorted.insertionSort_eq sorted_p4]
  norm_num [List.getD, List.getElem_cons_succ, List.getElem_cons_zero]
  try simp
  try norm_num

theorem percentile_p4_q1 : percentileR 1 ([20, 30, 40, 50] : List ℝ) = 203/10 := by
  unfold percentileR sortR
  rw [List.Sorted.insertionSort_eq sorted_p4]
  norm_num [List.getD, List.getElem_cons_succ, List.getElem_cons_zero]
  try simp
  try norm_num

theorem cleanDefault_eval1 :
    cleanDefault ([10, 20, 30, 40, 50] : List ℝ) = [20, 30, 40, 50] := by
  unfold cleanDefault cleanSoldPrices
  norm_num [List.filter, percentile_p5_q25, percentile_p5_q75, percentile_p5_q1, max_def]

theorem cleanDefault_eval2 :
    cleanDefault ([20, 30, 40, 50] : List ℝ) = [30, 40, 50] := by
  unfold cleanDefault cleanSoldPrices
  norm_num [List.filter, percentile_p4_q25, percentile_p4_q75, percentile_p4_q1, max_def]

/-- C8 counterexample: on the prices `[10, 20, 30, 40, 50]` one cleaning pass
keeps `[20, 30, 40, 50]` (the 1st-percentile bound 10.4 strips the minimum),
and a second pass keeps `[30, 40, 50]` (the new 1st-percentile bound 20.3
strips the next minimum) — the second application does remove further
prices. -/
theorem c8_counterexample :
    cleanDefault (cleanDefault ([10, 20, 30, 40, 50] : List ℝ)) ≠
      cleanDefault ([10, 20, 30, 40, 50] : List ℝ) := by
  rw [cleanDefault_eval1, cleanDefault_eval2]
  norm_num

end DataProc

namespace Sim

theorem probRuinStaleness_le_probRuin (cfg : PortfolioSimulatorConfig) (g : ℕ → ℝ) :
    probRuinStaleness cfg g ≤ probRuin cfg g := by
  unfold probRuin probRuinStaleness
  have hc : (List.range cfg.num_paths).countP (fun p => isRuin cfg g p && hadStale cfg g p) ≤
      (List.range cfg.num_paths).countP (fun p => isRuin cfg g p) :=
    List.countP_mono_left (fun p _ hp => ((Bool.and_eq_true _ _).mp hp).1)
  exact div_le_div_of_nonneg_right (by exact_mod_cast hc) (by positivity)

/-- C2: the staleness-attributed ruin probability reported by the engine
never exceeds the plain ruin probability: every path counted in the former
is a ruined path (conjunct of the same ruin mask) that also has a stale
asset. -/
theorem c2_staleness_subset (cfg : PortfolioSimulatorConfig) (entropy : ℕ → ℝ) :
    (runPortfolioMonteCarlo cfg entropy).probability_of_ruin_staleness ≤
      (runPortfolioMonteCarlo cfg entropy).probability_of_ruin := by
  unfold runPortfolioMonteCarlo
  cases cfg.seed with
  | none => exact probRuinStaleness_le_probRuin cfg entropy
  | some s => exact probRuinStaleness_le_probRuin cfg (streamOfSeed s)

theorem findIdx_congr {f g : ℕ → Bool} :
    ∀ (l : List ℕ), (∀ x ∈ l, f x = g x) → l.findIdx f = l.findIdx g
  | [], _ => rfl
  | a :: l, h => by
    rw [List.findIdx_cons, List.findIdx_cons, h a (List.mem_cons_self a l),
      findIdx_congr l (fun x hx => h x (List.mem_cons_of_mem a hx))]

theorem findIdx_comp_map (phi : ℕ → ℕ) (p : ℕ → Bool) :
    ∀ (l : List ℕ), (l.map phi).findIdx p = l.findIdx (fun x => p (phi x))
  | [] => rfl
  | a :: l => by
    rw [List.map_cons, List.findIdx_cons, List.findIdx_cons, findIdx_comp_map phi p l]

/-- The code's flipped-argmin staleness count equals the length of the run
of consecutive below-threshold days ending exactly at the final step. -/
theorem daysStaleAtEnd_eq_trailingRun : ∀ (T : ℕ) (b : ℕ → Bool),
    daysStaleAtEnd T b = trailingRun T b := by
  intro T
  induction T with
  | zero => intro b; simp [daysStaleAtEnd, trailingRun]
  | succ T ih =>
    intro b
    cases hbT : b T with
    | false =>
      have htr : trailingRun (T + 1) b = 0 := by simp [trailingRun, hbT]
      rw [htr]
      simp only [daysStaleAtEnd]
      rw [if_neg, List.range_succ_eq_map, List.findIdx_cons]
      · simp [hbT]
      · intro hall
        have hT := List.all_eq_true.mp hall T (List.mem_range.mpr (Nat.lt_succ_self T))
        rw [hbT] at hT
        exact Bool.false_ne_true hT
    | true =>
      have htr : trailingRun (T + 1) b = trailingRun T b + 1 := by
        simp [trailingRun, hbT]
      rw [htr]
      by_cases hall : (List.range T).all b = true
      · have hall1 : (List.range (T + 1)).all b = true := by
          refine List.all_eq_true.mpr fun x hx => ?_
          rcases Nat.lt_succ_iff_lt_or_eq.mp (List.mem_range.mp hx) with hlt | heq
          · exact List.all_eq_true.mp hall x (List.mem_range.mpr hlt)
          · rw [heq]; exact hbT
        have h2 : trailingRun T b = T := by
          rw [← ih b]
          simp only [daysStaleAtEnd]
          rw [if_pos hall]
        simp only [daysStaleAtEnd]
        rw [if_pos hall1, h2]
      · have hall1 : ¬ ((List.range (T + 1)).all b = true) := by
          intro h
          exact hall (List.all_eq_true.mpr fun x hx =>
            List.all_eq_true.mp h x
              (List.mem_range.mpr (Nat.lt_succ_of_lt (List.mem_range.mp hx))))
        have h3 : (List.range T).findIdx (fun j => !(b (T - 1 - j))) = trailingRun T b := by
          rw [← ih b]
          simp only [daysStaleAtEnd]
          rw [if_neg hall]
        simp only [daysStaleAtEnd]
        rw [if_neg hall1, List.range_succ_eq_map, List.findIdx_cons]
        have hhead : (!(b (T + 1 - 1 - 0))) = false := by
          simpa using hbT
        rw [hhead]
        have hfg : ∀ x ∈ List.range T,
            (fun j => !(b (T + 1 - 1 - Nat.succ j))) x = (fun j => !(b (T - 1 - j))) x := by
          intro x _
          have hx : T + 1 - 1 - Nat.succ x = T - 1 - x := by omega
          simp only [hx]
        rw [show (cond false 0 ((List.findIdx (fun j => !(b (T + 1 - 1 - j)))
            (List.map Nat.succ (List.range T))) + 1)) = (List.findIdx (fun j => !(b (T + 1 - 1 - j)))
            (List.map Nat.succ (List.range T))) + 1 from rfl]
        rw [findIdx_comp_map, findIdx_congr (List.range T) hfg, h3]

/-- Arithmetic characterization of the trailing run: it reaches `N` exactly
when the final `N` steps exist and are all below threshold. -/
theorem trailingRun_le_iff : ∀ (T : ℕ) (b : ℕ → Bool) (N : ℕ),
    N ≤ trailingRun T b ↔ (N ≤ T ∧ ∀ t, T - N ≤ t → t < T → b t = true) := by
  intro T
  induction T with
  | zero =>
    intro b N
    constructor
    · intro h
      exact ⟨h, fun t _ ht => absurd ht (Nat.not_lt_zero t)⟩
    · intro h
      exact h.1
  | succ T ih =>
    intro b N
    cases hbT : b T with
    | false =>
      have htr : trailingRun (T + 1) b = 0 := by simp [trailingRun, hbT]
      rw [htr]
      constructor
      · intro h
        have hN : N = 0 := Nat.le_zero.mp h
        subst hN
        exact ⟨Nat.zero_le _, fun t h1 h2 => absurd h2 (by omega)⟩
      · rintro ⟨hNT, hall⟩
        by_contra hN
        have h1 : 1 ≤ N := by omega
        have := hall T (by omega) (Nat.lt_succ_self T)
        rw [hbT] at this
        exact Bool.false_ne_true this
    | true =>
      have htr : trailingRun (T + 1) b = trailingRun T b + 1 := by
        simp [trailingRun, hbT]
      rw [htr]
      cases N with
      | zero =>
        constructor
        · intro _
          exact ⟨Nat.zero_le _, fun t h1 h2 => absurd (Nat.lt_of_le_of_lt h1 h2) (by omega)⟩
        · intro _
          exact Nat.zero_le _
      | succ M =>
        have hM := ih b M
        constructor
        · intro h
          obtain ⟨hMT, hA⟩ := hM.mp (by omega)
          refine ⟨by omega, fun t h1 h2 => ?_⟩
          by_cases ht : t < T
          · exact hA t (by omega) ht
          · have : t = T := by omega
            rw [this]
            exact hbT
        · rintro ⟨h1, h2⟩
          have hMtr : M ≤ trailingRun T b :=
            hM.mpr ⟨by omega, fun t ha hb2 => h2 t (by omega) (by omega)⟩
          omega

/-- A below-threshold run that stops short of the final step leaves the
trailing run empty. -/
theorem trailingRun_eq_zero (T : ℕ) (b : ℕ → Bool) (hT : 1 ≤ T)
    (hb : b (T - 1) = false) : trailingRun T b = 0 := by
  cases T with
  | zero => omega
  | succ T =>
    have hb2 : b T = false := by simpa using hb
    simp [trailingRun, hb2]

/-- C3: for every path and asset, the haircut multiplier is applied exactly
when the run of consecutive below-threshold simulated-volume days ending at
the final step has length at least the configured staleness run-length.
Conjunct 1 restates the multiplier through the trailing run; conjunct 2
unfolds "trailing run of length ≥ N" into the spec's wording (the last `N`
steps all below threshold); conjunct 3 is the asymmetry: when the final step
is not below threshold, no interior below-threshold run can trigger the
haircut. -/
theorem c3_staleness_haircut (cfg : PortfolioSimulatorConfig) (g : ℕ → ℝ) (p k : ℕ) :
    (haircutOf cfg g p k =
      if cfg.staleness_ruin_days ≤ trailingRun cfg.num_days (belowThreshold cfg g p k)
        then cfg.staleness_haircut else 1)
    ∧ (isStale cfg g p k = true ↔
        (cfg.staleness_ruin_days ≤ cfg.num_days ∧
          ∀ t, cfg.num_days - cfg.staleness_ruin_days ≤ t → t < cfg.num_days →
            belowThreshold cfg g p k t = true))
    ∧ (1 ≤ cfg.num_days → 1 ≤ cfg.staleness_ruin_days →
        belowThreshold cfg g p k (cfg.num_days - 1) = false →
          haircutOf cfg g p k = 1) := by
  have hds := daysStaleAtEnd_eq_trailingRun cfg.num_days (belowThreshold cfg g p k)
  have hstale : isStale cfg g p k = true ↔
      cfg.staleness_ruin_days ≤ trailingRun cfg.num_days (belowThreshold cfg g p k) := by
    unfold isStale
    rw [hds]
    exact decide_eq_true_iff
  refine ⟨?_, ?_, ?_⟩
  · unfold haircutOf
    by_cases h : cfg.staleness_ruin_days ≤ trailingRun cfg.num_days (belowThreshold cfg g p k)
    · rw [if_pos (hstale.mpr h), if_pos h]
    · rw [if_neg (fun hc => h (hstale.mp hc)), if_neg h]
  · rw [hstale, trailingRun_le_iff]
  · intro hT hN hb
    unfold haircutOf
    rw [if_neg]
    intro hs
    have h2 := hstale.mp hs
    rw [trailingRun_eq_zero _ _ hT hb] at h2
    omega

theorem c3_staleness_haircut_witness :
    haircutOf
      { sku_params := [("A", ⟨0, 1, 1⟩)], num_days := 1, num_paths := 1,
        staleness_ruin_days := 1 }
      (fun _ => 0) 0 0 = 1 := by
  refine (c3_staleness_haircut _ (fun _ => 0) 0 0).2.2 (by norm_num) (by norm_num) ?_
  unfold belowThreshold
  apply decide_eq_false
  unfold volumeOf liqOf effParams
  norm_num [List.getD, Real.exp_zero]

end Sim

namespace Sim

theorem mktIdx_lt (cfg : PortfolioSimulatorConfig) {p t : ℕ}
    (hp : p < cfg.num_paths) (ht : t < cfg.num_days) :
    mktIdx cfg p t < numMarketDraws cfg := by
  unfold mktIdx numMarketDraws
  calc p * cfg.num_days + t < p * cfg.num_days + cfg.num_days := by omega
    _ = (p + 1) * cfg.num_days := by ring
    _ ≤ cfg.num_paths * cfg.num_days := Nat.mul_le_mul_right _ (by omega)

theorem flatIdx_lt (cfg : PortfolioSimulatorConfig) {p t k : ℕ}
    (hp : p < cfg.num_paths) (ht : t < cfg.num_days) (hk : k < numSkus cfg) :
    (p * cfg.num_days + t) * numSkus cfg + k < numMarketDraws cfg * numSkus cfg := by
  have h1 : p * cfg.num_days + t < numMarketDraws cfg := mktIdx_lt cfg hp ht
  calc (p * cfg.num_days + t) * numSkus cfg + k
      < (p * cfg.num_days + t) * numSkus cfg + numSkus cfg := by omega
    _ = (p * cfg.num_days + t + 1) * numSkus cfg := by ring
    _ ≤ numMarketDraws cfg * numSkus cfg := Nat.mul_le_mul_right _ (by omega)

theorem mktIdx_lt_numDraws (cfg : PortfolioSimulatorConfig) {p t : ℕ}
    (hp : p < cfg.num_paths) (ht : t < cfg.num_days) :
    mktIdx cfg p t < numDraws cfg := by
  have := mktIdx_lt cfg hp ht
  unfold numDraws
  omega

theorem idioIdx_lt_numDraws (cfg : PortfolioSimulatorConfig) {p t k : ℕ}
    (hp : p < cfg.num_paths) (ht : t < cfg.num_days) (hk : k < numSkus cfg) :
    idioIdx cfg p t k < numDraws cfg := by
  have := flatIdx_lt cfg hp ht hk
  unfold idioIdx numDraws
  omega

theorem volIdx_lt_numDraws (cfg : PortfolioSimulatorConfig) {p t k : ℕ}
    (hp : p < cfg.num_paths) (ht : t < cfg.num_days) (hk : k < numSkus cfg) :
    volIdx cfg p t k < numDraws cfg := by
  have := flatIdx_lt cfg hp ht hk
  unfold volIdx numDraws
  omega

theorem shockZ_congr (cfg : PortfolioSimulatorConfig) {g₁ g₂ : ℕ → ℝ}
    (hg : ∀ n, n < numDraws cfg → g₁ n = g₂ n) {p t k : ℕ}
    (hp : p < cfg.num_paths) (ht : t < cfg.num_days) (hk : k < numSkus cfg) :
    shockZ cfg g₁ p t k = shockZ cfg g₂ p t k := by
  unfold shockZ
  rw [hg _ (mktIdx_lt_numDraws cfg hp ht), hg _ (idioIdx_lt_numDraws cfg hp ht hk)]

theorem logRet_congr (cfg : PortfolioSimulatorConfig) {g₁ g₂ : ℕ → ℝ}
    (hg : ∀ n, n < numDraws cfg → g₁ n = g₂ n) {p t k : ℕ}
    (hp : p < cfg.num_paths) (ht : t < cfg.num_days) (hk : k < numSkus cfg) :
    logRet cfg g₁ p t k = logRet cfg g₂ p t k := by
  unfold logRet
  rw [shockZ_congr cfg hg hp ht hk]

theorem endPrice_congr (cfg : PortfolioSimulatorConfig) {g₁ g₂ : ℕ → ℝ}
    (hg : ∀ n, n < numDraws cfg → g₁ n = g₂ n) {p k : ℕ}
    (hp : p < cfg.num_paths) (hk : k < numSkus cfg) :
    endPrice cfg g₁ p k = endPrice cfg g₂ p k := by
  unfold endPrice
  rw [Finset.sum_congr rfl
    (fun t ht => logRet_congr cfg hg hp (Finset.mem_range.mp ht) hk)]

theorem volumeOf_congr (cfg : PortfolioSimulatorConfig) {g₁ g₂ : ℕ → ℝ}
    (hg : ∀ n, n < numDraws cfg → g₁ n = g₂ n) {p t k : ℕ}
    (hp : p < cfg.num_paths) (ht : t < cfg.num_days) (hk : k < numSkus cfg) :
    volumeOf cfg g₁ p t k = volumeOf cfg g₂ p t k := by
  unfold volumeOf
  rw [hg _ (volIdx_lt_numDraws cfg hp ht hk)]

theorem belowThreshold_congr (cfg : PortfolioSimulatorConfig) {g₁ g₂ : ℕ → ℝ}
    (hg : ∀ n, n < numDraws cfg → g₁ n = g₂ n) {p t k : ℕ}
    (hp : p < cfg.num_paths) (ht : t < cfg.num_days) (hk : k < numSkus cfg) :
    belowThreshold cfg g₁ p k t = belowThreshold cfg g₂ p k t := by
  unfold belowThreshold
  rw [volumeOf_congr cfg hg hp ht hk]

theorem all_congr_list {b₁ b₂ : ℕ → Bool} :
    ∀ l : List ℕ, (∀ x ∈ l, b₁ x = b₂ x) → l.all b₁ = l.all b₂
  | [], _ => rfl
  | a :: l, h => by
    rw [List.all_cons, List.all_cons, h a (List.mem_cons_self a l),
      all_congr_list l (fun x hx => h x (List.mem_cons_of_mem a hx))]

theorem any_congr_list {b₁ b₂ : ℕ → Bool} :
    ∀ l : List ℕ, (∀ x ∈ l, b₁ x = b₂ x) → l.any b₁ = l.any b₂
  | [], _ => rfl
  | a :: l, h => by
    rw [List.any_cons, List.any_cons, h a (List.mem_cons_self a l),
      any_congr_list l (fun x hx => h x (List.mem_cons_of_mem a hx))]

theorem daysStaleAtEnd_congr (T : ℕ) {b₁ b₂ : ℕ → Bool}
    (h : ∀ t, t < T → b₁ t = b₂ t) :
    daysStaleAtEnd T b₁ = daysStaleAtEnd T b₂ := by
  unfold daysStaleAtEnd
  rw [all_congr_list (List.range T) (fun x hx => h x (List.mem_range.mp hx)),
    findIdx_congr (List.range T)
      (fun j hj => by rw [h (T - 1 - j) (by have := List.mem_range.mp hj; omega)])]

theorem isStale_congr (cfg : PortfolioSimulatorConfig) {g₁ g₂ : ℕ → ℝ}
    (hg : ∀ n, n < numDraws cfg → g₁ n = g₂ n) {p k : ℕ}
    (hp : p < cfg.num_paths) (hk : k < numSkus cfg) :
    isStale cfg g₁ p k = isStale cfg g₂ p k := by
  unfold isStale
  rw [daysStaleAtEnd_congr cfg.num_days
    (fun t ht => belowThreshold_congr cfg hg hp ht hk)]

theorem haircutOf_congr (cfg : PortfolioSimulatorConfig) {g₁ g₂ : ℕ → ℝ}
    (hg : ∀ n, n < numDraws cfg → g₁ n = g₂ n) {p k : ℕ}
    (hp : p < cfg.num_paths) (hk : k < numSkus cfg) :
    haircutOf cfg g₁ p k = haircutOf cfg g₂ p k := by
  unfold haircutOf
  rw [isStale_congr cfg hg hp hk]

theorem finalValue_congr (cfg : PortfolioSimulatorConfig) {g₁ g₂ : ℕ → ℝ}
    (hg : ∀ n, n < numDraws cfg → g₁ n = g₂ n) {p : ℕ} (hp : p < cfg.num_paths) :
    finalValue cfg g₁ p = finalValue cfg g₂ p := by
  unfold finalValue valuePerSku
  exact Finset.sum_congr rfl fun k hk => by
    rw [endPrice_congr cfg hg hp (Finset.mem_range.mp hk),
      haircutOf_congr cfg hg hp (Finset.mem_range.mp hk)]

theorem finalValues_congr (cfg : PortfolioSimulatorConfig) {g₁ g₂ : ℕ → ℝ}
    (hg : ∀ n, n < numDraws cfg → g₁ n = g₂ n) :
    finalValues cfg g₁ = finalValues cfg g₂ := by
  unfold finalValues
  exact List.map_congr_left fun p hp =>
    finalValue_congr cfg hg (List.mem_range.mp hp)

theorem probRuin_congr (cfg : PortfolioSimulatorConfig) {g₁ g₂ : ℕ → ℝ}
    (hg : ∀ n, n < numDraws cfg → g₁ n = g₂ n) :
    probRuin cfg g₁ = probRuin cfg g₂ := by
  unfold probRuin isRuin
  rw [List.countP_congr fun p hp => by
    rw [finalValue_congr cfg hg (List.mem_range.mp hp)]]

theorem probRuinStaleness_congr (cfg : PortfolioSimulatorConfig) {g₁ g₂ : ℕ → ℝ}
    (hg : ∀ n, n < numDraws cfg → g₁ n = g₂ n) :
    probRuinStaleness cfg g₁ = probRuinStaleness cfg g₂ := by
  unfold probRuinStaleness isRuin hadStale
  rw [List.countP_congr fun p hp => by
    rw [finalValue_congr cfg hg (List.mem_range.mp hp),
      any_congr_list (List.range (numSkus cfg)) (fun k hk =>
        isStale_congr cfg hg (List.mem_range.mp hp) (List.mem_range.mp hk))]]

theorem mcResult_congr (cfg : PortfolioSimulatorConfig) {g₁ g₂ : ℕ → ℝ}
    (hg : ∀ n, n < numDraws cfg → g₁ n = g₂ n) :
    mcResult cfg g₁ = mcResult cfg g₂ := by
  unfold mcResult
  rw [finalValues_congr cfg hg, probRuin_congr cfg hg, probRuinStaleness_congr cfg hg]

/-- C1: (1) with a fixed (non-null) seed the engine is a function of the
configuration alone — the ambient entropy stream is ignored, so two
invocations with identical configuration return identical results including
the terminal-value array; (2) the result reads the generator stream only on
its first `P·T + 2·P·T·K` draws — streams agreeing there give identical
results; (3) the draw positions are ordered market shocks first (the first
`P·T` draws), then idiosyncratic shocks (the next `P·T·K`), then volume
shocks (the last `P·T·K`). -/
theorem c1_seed_determinism (cfg : PortfolioSimulatorConfig) :
    (∀ s, cfg.seed = some s → ∀ e₁ e₂ : ℕ → ℝ,
        runPortfolioMonteCarlo cfg e₁ = runPortfolioMonteCarlo cfg e₂)
    ∧ (∀ g₁ g₂ : ℕ → ℝ, (∀ n, n < numDraws cfg → g₁ n = g₂ n) →
        mcResult cfg g₁ = mcResult cfg g₂)
    ∧ (∀ p t k, p < cfg.num_paths → t < cfg.num_days → k < numSkus cfg →
        mktIdx cfg p t < numMarketDraws cfg ∧
        numMarketDraws cfg ≤ idioIdx cfg p t k ∧
        idioIdx cfg p t k < numMarketDraws cfg + numMarketDraws cfg * numSkus cfg ∧
        numMarketDraws cfg + numMarketDraws cfg * numSkus cfg ≤ volIdx cfg p t k ∧
        volIdx cfg p t k < numDraws cfg) := by
  refine ⟨?_, ?_, ?_⟩
  · intro s hs e₁ e₂
    unfold runPortfolioMonteCarlo
    rw [hs]
  · intro g₁ g₂ hg
    exact mcResult_congr cfg hg
  · intro p t k hp ht hk
    have h1 := mktIdx_lt cfg hp ht
    have h2 := flatIdx_lt cfg hp ht hk
    unfold idioIdx volIdx numDraws
    refine ⟨h1, by omega, by omega, by omega, by omega⟩

theorem c1_seed_determinism_witness :
    runPortfolioMonteCarlo
        { sku_params := [("A", ⟨0, 1, 1⟩)], num_days := 1, num_paths := 1, seed := some 7 }
        (fun _ => 0) =
      runPortfolioMonteCarlo
        { sku_params := [("A", ⟨0, 1, 1⟩)], num_days := 1, num_paths := 1, seed := some 7 }
        (fun _ => 37) :=
  (c1_seed_determinism _).1 7 rfl _ _

end Sim

namespace Sim

theorem setSigmaList_length :
    ∀ (ps : List (String × SkuParams)) (k : ℕ) (v : ℝ),
      (setSigmaList ps k v).length = ps.length
  | [], _, _ => rfl
  | _ :: rest, 0, _ => rfl
  | _ :: rest, k + 1, v => by
    simp only [setSigmaList, List.length_cons, setSigmaList_length rest k v]

theorem setSigmaList_isEmpty (ps : List (String × SkuParams)) (k : ℕ) (v : ℝ) :
    (setSigmaList ps k v).isEmpty = ps.isEmpty := by
  cases ps with
  | nil => rfl
  | cons x rest => cases k <;> rfl

theorem setSigmaList_map_fst :
    ∀ (ps : List (String × SkuParams)) (k : ℕ) (v : ℝ),
      (setSigmaList ps k v).map Prod.fst = ps.map Prod.fst
  | [], _, _ => rfl
  | _ :: rest, 0, _ => rfl
  | _ :: rest, k + 1, v => by
    simp only [setSigmaList, List.map_cons, setSigmaList_map_fst rest k v]

theorem setSigmaList_getD_fst :
    ∀ (ps : List (String × SkuParams)) (k : ℕ) (v : ℝ) (j : ℕ),
      ((setSigmaList ps k v).getD j default).1 = (ps.getD j default).1
  | [], _, _, _ => rfl
  | _ :: rest, 0, _, 0 => rfl
  | _ :: rest, 0, _, _ + 1 => rfl
  | _ :: rest, _ + 1, _, 0 => rfl
  | _ :: rest, k + 1, v, j + 1 => by
    simp only [setSigmaList, List.getD_cons_succ]
    exact setSigmaList_getD_fst rest k v j

theorem setSigmaList_getD_mu :
    ∀ (ps : List (String × SkuParams)) (k : ℕ) (v : ℝ) (j : ℕ),
      ((setSigmaList ps k v).getD j default).2.mu = (ps.getD j default).2.mu
  | [], _, _, _ => rfl
  | _ :: rest, 0, _, 0 => rfl
  | _ :: rest, 0, _, _ + 1 => rfl
  | _ :: rest, _ + 1, _, 0 => rfl
  | _ :: rest, k + 1, v, j + 1 => by
    simp only [setSigmaList, List.getD_cons_succ]
    exact setSigmaList_getD_mu rest k v j

theorem setSigmaList_getD_liq :
    ∀ (ps : List (String × SkuParams)) (k : ℕ) (v : ℝ) (j : ℕ),
      ((setSigmaList ps k v).getD j default).2.liquidity_score =
        (ps.getD j default).2.liquidity_score
  | [], _, _, _ => rfl
  | _ :: rest, 0, _, 0 => rfl
  | _ :: rest, 0, _, _ + 1 => rfl
  | _ :: rest, _ + 1, _, 0 => rfl
  | _ :: rest, k + 1, v, j + 1 => by
    simp only [setSigmaList, List.getD_cons_succ]
    exact setSigmaList_getD_liq rest k v j

theorem setSigmaList_getD_sigma_ne :
    ∀ (ps : List (String × SkuParams)) (k : ℕ) (v : ℝ) (j : ℕ), j ≠ k →
      ((setSigmaList ps k v).getD j default).2.sigma = (ps.getD j default).2.sigma
  | [], _, _, _, _ => rfl
  | _ :: rest, 0, _, 0, h => absurd rfl h
  | _ :: rest, 0, _, _ + 1, _ => rfl
  | _ :: rest, _ + 1, _, 0, _ => rfl
  | _ :: rest, k + 1, v, j + 1, h => by
    simp only [setSigmaList, List.getD_cons_succ]
    exact setSigmaList_getD_sigma_ne rest k v j (fun hc => h (by rw [hc]))

theorem setSigmaList_getD_sigma_eq :
    ∀ (ps : List (String × SkuParams)) (k : ℕ) (v : ℝ), k < ps.length →
      ((setSigmaList ps k v).getD k default).2.sigma = v
  | [], k, _, h => absurd h (by simp)
  | _ :: rest, 0, _, _ => rfl
  | _ :: rest, k + 1, v, h => by
    simp only [setSigmaList, List.getD_cons_succ]
    exact setSigmaList_getD_sigma_eq rest k v (by simpa using h)

theorem effParams_of_nonempty (cfg : PortfolioSimulatorConfig)
    (h : cfg.sku_params.isEmpty = false) : effParams cfg = cfg.sku_params := by
  unfold effParams
  rw [h]
  simp

theorem effParams_setSigma (cfg : PortfolioSimulatorConfig) (k : ℕ) (v : ℝ)
    (h : cfg.sku_params.isEmpty = false) :
    effParams (setSigma cfg k v) = setSigmaList cfg.sku_params k v := by
  show (if (setSigmaList cfg.sku_params k v).isEmpty then _
    else setSigmaList cfg.sku_params k v) = setSigmaList cfg.sku_params k v
  rw [setSigmaList_isEmpty, h]
  simp

/-- C10: volatilities are used only through the clamp
`sigma_arr = np.maximum(sigma_arr, 1e-6)`, so a configuration in which asset
`k` has `σ ≤ 1e-6` (zero and negative volatilities included) produces
exactly the same result as the identical configuration with that asset's
volatility set to `1e-6`. -/
theorem c10_sigma_clamp (cfg : PortfolioSimulatorConfig) (k : ℕ)
    (hk : k < cfg.sku_params.length)
    (hσ : (cfg.sku_params.getD k default).2.sigma ≤ 1e-6) (entropy : ℕ → ℝ) :
    runPortfolioMonteCarlo (setSigma cfg k 1e-6) entropy =
      runPortfolioMonteCarlo cfg entropy := by
  have hempty : cfg.sku_params.isEmpty = false := by
    cases hps : cfg.sku_params with
    | nil => rw [hps] at hk; simp at hk
    | cons a l => rfl
  have heff : effParams cfg = cfg.sku_params := effParams_of_nonempty cfg hempty
  have heff2 : effParams (setSigma cfg k 1e-6) = setSigmaList cfg.sku_params k 1e-6 :=
    effParams_setSigma cfg k 1e-6 hempty
  have hK : numSkus (setSigma cfg k 1e-6) = numSkus cfg := by
    unfold numSkus
    rw [heff2, heff, setSigmaList_length]
  have hlab : labelOf (setSigma cfg k 1e-6) = labelOf cfg := by
    funext j
    unfold labelOf
    rw [heff2, heff, setSigmaList_getD_fst]
  have hmu : muOf (setSigma cfg k 1e-6) = muOf cfg := by
    funext j
    unfold muOf
    rw [heff2, heff, setSigmaList_getD_mu]
  have hliq : liqOf (setSigma cfg k 1e-6) = liqOf cfg := by
    funext j
    unfold liqOf
    rw [heff2, heff, setSigmaList_getD_liq]
  have hsig : sigmaOf (setSigma cfg k 1e-6) = sigmaOf cfg := by
    funext j
    unfold sigmaOf sigmaRawOf
    rw [heff2, heff]
    by_cases hj : j = k
    · subst hj
      rw [setSigmaList_getD_sigma_eq cfg.sku_params j 1e-6 hk, max_self,
        max_eq_right hσ]
    · rw [setSigmaList_getD_sigma_ne cfg.sku_params k 1e-6 j hj]
  have hs0 : s0Of (setSigma cfg k 1e-6) = s0Of cfg := by
    funext j
    have hproj : (setSigma cfg k 1e-6).s0_per_sku = cfg.s0_per_sku := rfl
    simp only [s0Of, hproj, hlab]
  have hlabels : (effParams (setSigma cfg k 1e-6)).map Prod.fst =
      (effParams cfg).map Prod.fst := by
    rw [heff2, heff, setSigmaList_map_fst]
  have hmc : ∀ g : ℕ → ℝ, mcResult (setSigma cfg k 1e-6) g = mcResult cfg g := by
    intro g
    have h1 : (setSigma cfg k 1e-6).num_days = cfg.num_days := rfl
    have h2 : (setSigma cfg k 1e-6).num_paths = cfg.num_paths := rfl
    have h3 : (setSigma cfg k 1e-6).initial_capital = cfg.initial_capital := rfl
    have h4 : (setSigma cfg k 1e-6).market_beta = cfg.market_beta := rfl
    have h5 : (setSigma cfg k 1e-6).volume_threshold = cfg.volume_threshold := rfl
    have h6 : (setSigma cfg k 1e-6).staleness_ruin_days = cfg.staleness_ruin_days := rfl
    have h7 : (setSigma cfg k 1e-6).staleness_haircut = cfg.staleness_haircut := rfl
    have h8 : (setSigma cfg k 1e-6).ruin_pct = cfg.ruin_pct := rfl
    have hZ : shockZ (setSigma cfg k 1e-6) g = shockZ cfg g := by
      funext p t j
      simp only [shockZ, betaClip, mktIdx, idioIdx, numMarketDraws, h1, h2, h4, hK]
    have hlr : logRet (setSigma cfg k 1e-6) g = logRet cfg g := by
      funext p t j
      simp only [logRet, h1, hmu, hsig, hZ]
    have hep : endPrice (setSigma cfg k 1e-6) g = endPrice cfg g := by
      funext p j
      simp only [endPrice, h1, hs0, hlr]
    have hvol : volumeOf (setSigma cfg k 1e-6) g = volumeOf cfg g := by
      funext p t j
      simp only [volumeOf, volIdx, numMarketDraws, h1, h2, hK, hliq]
    have hbel : belowThreshold (setSigma cfg k 1e-6) g = belowThreshold cfg g := by
      funext p j t
      simp only [belowThreshold, h5, hvol]
    have hst : isStale (setSigma cfg k 1e-6) g = isStale cfg g := by
      funext p j
      simp only [isStale, h6, h1, hbel]
    have hhc : haircutOf (setSigma cfg k 1e-6) g = haircutOf cfg g := by
      funext p j
      simp only [haircutOf, h7, hst]
    have hfv : finalValue (setSigma cfg k 1e-6) g = finalValue cfg g := by
      funext p
      simp only [finalValue, valuePerSku, sharesOf, h3, hK, hs0, hep, hhc]
    have hrn : isRuin (setSigma cfg k 1e-6) g = isRuin cfg g := by
      funext p
      simp only [isRuin, ruinThr, h3, h8, hfv]
    have hhs : hadStale (setSigma cfg k 1e-6) g = hadStale cfg g := by
      funext p
      simp only [hadStale, hK, hst]
    simp only [mcResult, finalValues, probRuin, probRuinStaleness, h2, h6, hK,
      hlabels, hfv, hrn, hhs]
  have hseed : (setSigma cfg k 1e-6).seed = cfg.seed := rfl
  unfold runPortfolioMonteCarlo
  rw [hseed]
  cases cfg.seed with
  | none => exact hmc entropy
  | some s => exact hmc (streamOfSeed s)

theorem c10_sigma_clamp_witness :
    runPortfolioMonteCarlo
        (setSigma { sku_params := [("A", ⟨0.05, 0, 0.5⟩)] } 0 1e-6)
        (fun _ => 0) =
      runPortfolioMonteCarlo { sku_params := [("A", ⟨0.05, 0, 0.5⟩)] }
        (fun _ => 0) :=
  c10_sigma_clamp { sku_params := [("A", ⟨0.05, 0, 0.5⟩)] } 0
    (by simp) (by norm_num [List.getD]) (fun _ => 0)

end Sim
